import Mathlib

/-!
Verification development for the unreal-docs-proxy search/aggregation pipeline.

The JavaScript handlers are shallowly embedded: pure fragments become Lean
functions over `String`/`List`, the network fetch is an oracle argument, and
the platform URL parser (WHATWG `new URL`) is modelled by explicit parsing
functions restricted to the fields the code reads (hostname, pathname, query
parameters).  Character-level operations work on ASCII inputs; multi-byte
UTF-8 percent-sequences are outside the modelled scope.
-/

namespace UnrealProxy

/-! ### Character and string utilities -/

/-- ASCII lowercasing of one character (the inputs the pipeline handles are
ASCII; `toLowerCase` beyond ASCII is outside the modelled scope). -/
def charLower (c : Char) : Char :=
  if 'A' ≤ c ∧ c ≤ 'Z' then Char.ofNat (c.toNat + 32) else c

/-- `s.toLowerCase()` model. -/
def lowerStr (s : String) : String :=
  String.mk (s.toList.map charLower)

/-- `s.startsWith(pre)` model. -/
def startsWithStr (s pre : String) : Bool :=
  pre.toList.isPrefixOf s.toList

/-- `s.endsWith(suf)` model. -/
def endsWithStr (s suf : String) : Bool :=
  suf.toList.isSuffixOf s.toList

/-- An ASCII whitespace character, for `trim`. -/
def wspChar (c : Char) : Bool :=
  c = ' ' ∨ c = '\t' ∨ c = '\n' ∨ c = '\r'

/-- `s.trim()` model. -/
def trimStr (s : String) : String :=
  String.mk (((s.toList.dropWhile wspChar).reverse.dropWhile wspChar).reverse)

/-- Split on a separator character, accumulating the current segment;
matches `String.prototype.split` with a one-character separator. -/
def splitCharAux (sep : Char) : List Char → List Char → List String
  | [], acc => [String.mk acc.reverse]
  | c :: rest, acc =>
    if c = sep then String.mk acc.reverse :: splitCharAux sep rest []
    else splitCharAux sep rest (c :: acc)

/-- `s.split(sep)` model for a one-character separator. -/
def splitChar (sep : Char) (s : String) : List String :=
  splitCharAux sep s.toList []

/-- Drop the last `n` characters of a string. -/
def dropRightStr (s : String) (n : Nat) : String :=
  String.mk (s.toList.take (s.toList.length - n))

/-- Substring test on character lists: does `pat` occur inside `l`? -/
def containsAux (pat : List Char) : List Char → Bool
  | [] => pat.isEmpty
  | c :: rest => pat.isPrefixOf (c :: rest) || containsAux pat rest

/-- `containsSub s pat` models the JavaScript `s.includes(pat)`. -/
def containsSub (s pat : String) : Bool :=
  containsAux pat.toList s.toList

/-- Word character for the regex `\b` boundary: `[A-Za-z0-9_]`. -/
def isWordChar (c : Char) : Bool :=
  c.isAlphanum || c = '_'

/-- Scan for an occurrence of word `w` surrounded by `\b` boundaries.
`prev` is the character immediately before the current position, if any. -/
def hasWordAux (w : List Char) (prev : Option Char) : List Char → Bool
  | [] => false
  | c :: rest =>
    (w.isPrefixOf (c :: rest)
      && (match prev with
          | none => true
          | some p => !(isWordChar p))
      && (match (c :: rest).drop w.length with
          | [] => true
          | d :: _ => !(isWordChar d)))
    || hasWordAux w (some c) rest

/-- `hasWord w s` models the regex test `/\bw\b/` for a word `w` made of
word characters. -/
def hasWord (w s : String) : Bool :=
  hasWordAux w.toList none s.toList

/-- Scan for the regex `/\/page\/\d+/`: the substring `"/page/"` followed by
at least one digit. -/
def hasPageNumAux : List Char → Bool
  | '/' :: 'p' :: 'a' :: 'g' :: 'e' :: '/' :: d :: rest =>
    d.isDigit || hasPageNumAux ('p' :: 'a' :: 'g' :: 'e' :: '/' :: d :: rest)
  | _ :: rest => hasPageNumAux rest
  | [] => false

/-- `hasPageNum p` models the regex test `/\/page\/\d+/` on `p`. -/
def hasPageNum (p : String) : Bool :=
  hasPageNumAux p.toList

/-- Path depth as computed by `pathname.split("/").filter(Boolean).length`. -/
def depthOf (p : String) : Nat :=
  ((splitChar '/' p).filter (fun seg => seg ≠ "")).length

/-- Title synthesized from a URL by
`url.split("/").pop().replace(/[-_]/g, " ")` (part_002 additionally uses
`split("/").slice(-1)[0]`, the same last segment). -/
def titleFromUrl (u : String) : String :=
  String.mk ((((splitChar '/' u).getLastD "").toList).map
    (fun c => if c = '-' || c = '_' then ' ' else c))

/-- Test for the regex `/sitemap.*\.xml(\.gz)?$/i` used by the part_002
sitemap handler to recognize child-sitemap locations. -/
def sitemapLike (s : String) : Bool :=
  let t := lowerStr s
  (endsWithStr t ".xml" && containsSub (dropRightStr t 4) "sitemap")
    || (endsWithStr t ".xml.gz" && containsSub (dropRightStr t 7) "sitemap")

/-- Value of a hex digit. -/
def hexVal (c : Char) : Option Nat :=
  if '0' ≤ c ∧ c ≤ '9' then some (c.toNat - '0'.toNat)
  else if 'a' ≤ c ∧ c ≤ 'f' then some (c.toNat - 'a'.toNat + 10)
  else if 'A' ≤ c ∧ c ≤ 'F' then some (c.toNat - 'A'.toNat + 10)
  else none

/-- `application/x-www-form-urlencoded` decoding as performed by
`URLSearchParams`: `+` becomes a space, `%hh` becomes the coded byte, and a
malformed percent sign is left as-is. -/
def formDecAux : List Char → List Char
  | [] => []
  | '+' :: rest => ' ' :: formDecAux rest
  | '%' :: a :: b :: rest =>
    (match hexVal a, hexVal b with
     | some x, some y => Char.ofNat (16 * x + y) :: formDecAux rest
     | _, _ => '%' :: formDecAux (a :: b :: rest))
  | c :: rest => c :: formDecAux rest

/-- String wrapper for `formDecAux`. -/
def formDecode (s : String) : String :=
  String.mk (formDecAux s.toList)

/-- `decodeURIComponent` model: strict `%hh` decoding, `+` untouched; a
malformed or non-ASCII sequence (which the real function would handle via
UTF-8 or reject with `URIError`) yields `none`, which the callers turn into
a dropped candidate via their `try/catch`. -/
def decURIAux : List Char → Option (List Char)
  | [] => some []
  | '%' :: a :: b :: rest =>
    (match hexVal a, hexVal b with
     | some x, some y =>
       if 16 * x + y < 128 then
         (decURIAux rest).map (fun r => Char.ofNat (16 * x + y) :: r)
       else none
     | _, _ => none)
  | '%' :: _ => none
  | c :: rest => (decURIAux rest).map (fun r => c :: r)

/-- String wrapper for `decURIAux`. -/
def decodeURIComponentOpt (s : String) : Option String :=
  (decURIAux s.toList).map String.mk

/-! ### URL model

The code delegates URL parsing to the WHATWG `URL` constructor.  We model the
two uses: resolving an href against the fixed base
`"https://duckduckgo.com"`, and parsing an absolute URL to read its hostname
and pathname.  Dot-segment normalization and exotic syntax are outside the
modelled scope. -/

/-- The fields of `new URL(href, "https://duckduckgo.com")` that the code
reads. -/
structure UrlView where
  pathname : String
  query : String
deriving DecidableEq, Repr

/-- Model of `new URL(href, "https://duckduckgo.com")` for an `href` without
scheme: strip the fragment, split off the query, and resolve the path
against the base origin (base path is `/`). -/
def ddgResolve (href : String) : UrlView :=
  let noFrag := href.toList.takeWhile (fun c => c ≠ '#')
  let p := noFrag.takeWhile (fun c => c ≠ '?')
  let q := (noFrag.drop p.length).drop 1
  let path :=
    match p with
    | '/' :: '/' :: rest =>
      let after := rest.dropWhile (fun c => c ≠ '/')
      if after.isEmpty then ['/'] else after
    | '/' :: rest => '/' :: rest
    | other => '/' :: other
  ⟨String.mk path, String.mk q⟩

/-- Parse a query string into key/value pairs, as `URLSearchParams` does:
split on `&`, drop empty segments, split each pair at the first `=`, and
form-decode both sides. -/
def paramPairs (q : String) : List (String × String) :=
  (splitChar '&' q).filterMap (fun kv =>
    if kv = "" then none
    else
      let k := kv.toList.takeWhile (fun c => c ≠ '=')
      let v := (kv.toList.drop k.length).drop 1
      some (formDecode (String.mk k), formDecode (String.mk v)))

/-- `searchParams.get(key)` model: first pair with the given key. -/
def searchParamGet (q key : String) : Option String :=
  ((paramPairs q).find? (fun pr => pr.1 == key)).map (fun pr => pr.2)

/-- `/^https?:\/\//i.test(href)`. -/
def hasHttpScheme (s : String) : Bool :=
  startsWithStr (lowerStr s) "http://" || startsWithStr (lowerStr s) "https://"

/-- Hostname and pathname of an absolute URL. -/
structure UrlParts where
  host : String
  pathname : String
deriving DecidableEq, Repr

/-- Split a character list at the first occurrence of `pat`, returning the
part before and the part after. -/
def splitSubAux (pat : List Char) : List Char → Option (List Char × List Char)
  | [] => if pat.isEmpty then some ([], []) else none
  | c :: rest =>
    if pat.isPrefixOf (c :: rest) then some ([], (c :: rest).drop pat.length)
    else
      match splitSubAux pat rest with
      | some (a, b) => some (c :: a, b)
      | none => none

/-- A character allowed in a URL scheme. -/
def isSchemeChar (c : Char) : Bool :=
  c.isAlphanum || c = '+' || c = '-' || c = '.'

/-- Model of `new URL(raw)` on an absolute URL, restricted to hostname and
pathname; returns `none` where the constructor would throw.  Hostnames are
lowercased; userinfo and port are stripped; the pathname of an authority-only
URL is `/`. -/
def parseAbs (s : String) : Option UrlParts :=
  match splitSubAux ("://".toList) s.toList with
  | none => none
  | some (sch, rest) =>
    match sch with
    | [] => none
    | c0 :: _ =>
      if !(c0.isAlpha) then none
      else if !(sch.all isSchemeChar) then none
      else
        let auth := rest.takeWhile (fun c => c ≠ '/' ∧ c ≠ '?' ∧ c ≠ '#')
        let after := rest.drop auth.length
        let hostPart := ((auth.reverse.takeWhile (fun c => c ≠ '@')).reverse)
        let host := hostPart.takeWhile (fun c => c ≠ ':')
        if host.isEmpty then none
        else
          let pathname :=
            match after with
            | '/' :: _ => after.takeWhile (fun c => c ≠ '?' ∧ c ≠ '#')
            | _ => ['/']
          some ⟨lowerStr (String.mk host), String.mk pathname⟩

/-! ### URL canonicalizer (`normalizeHref`, identical in src/api/search.js,
src/api/assets.js and src/unnamed/part_001) -/

/-- `normalizeHref`: pass absolute `http(s)` hrefs through unchanged;
otherwise resolve against the DDG origin and, only when the result is the
`/l/` redirect-wrapper path with a nonempty `uddg` parameter, return the
decoded inner URL; in every other case return no value. -/
def normalizeHref (href : String) : Option String :=
  if href = "" then none
  else if hasHttpScheme href then some href
  else
    let v := ddgResolve href
    if v.pathname = "/l/" then
      match searchParamGet v.query "uddg" with
      | none => none
      | some uddg => if uddg = "" then none else decodeURIComponentOpt uddg
    else none

/-! ### Domain rules and classifiers -/

/-- The fixed documentation-domain allowlist (src/unnamed/part_000 and
src/api/search.js; the `replace(/^\*\./, "")` in the source is the identity
on these strings). -/
def ALLOWLIST : List String :=
  ["dev.epicgames.com", "docs.unrealengine.com", "forums.unrealengine.com",
   "www.unrealengine.com"]

/-- `isAllowed` (src/unnamed/part_000 and src/api/search.js): the hostname of
the parsed URL must end with one of the allowlisted domains; a URL the
parser rejects is not allowed. -/
def isAllowed (raw : String) : Bool :=
  match parseAbs raw with
  | some pt => ALLOWLIST.any (fun d => endsWithStr pt.host d)
  | none => false

def MARKET_HOST : String := "www.unrealengine.com"

def ITCH_HOST : String := "itch.io"

/-- `isMarketplaceProduct` (src/api/assets.js): marketplace host, pathname
containing `/marketplace/`, and a case-insensitive `/product/` segment. -/
def isMarketplaceProduct (url : String) : Bool :=
  match parseAbs url with
  | some u =>
    u.host = MARKET_HOST
      && containsSub u.pathname "/marketplace/"
      && containsSub (lowerStr u.pathname) "/product/"
  | none => false

/-- The marketplace denylist test of the patched classifier:
`/(\/category\/|\/free|\/search|\/collections|\/page\/\d+)/.test(p)` on the
lowercased pathname. -/
def marketDenyHit (p : String) : Bool :=
  containsSub p "/category/" || containsSub p "/free" || containsSub p "/search"
    || containsSub p "/collections" || hasPageNum p

/-- `isProductLike` (patched version, src/unnamed/part_001 lines 305-328),
over the parsed hostname and pathname: a marketplace URL must contain
`/marketplace/` and avoid the listing denylist; an itch URL must be on a
non-root subdomain, not a `/t/` tag path, with path depth at most 1. -/
def isProductLike (host pathname : String) : Bool :=
  if host = MARKET_HOST then
    let p := lowerStr pathname
    if !(containsSub p "/marketplace/") then false
    else if marketDenyHit p then false
    else true
  else if endsWithStr host ITCH_HOST then
    if host = ITCH_HOST then false
    else if startsWithStr pathname "/t/" then false
    else depthOf pathname ≤ 1
  else false

/-- `inferPrice` (src/api/assets.js): `Free (inferred)` when the lowercased
title+snippet matches `/\bfree\b/`, else `Unknown`. -/
def inferPrice (title snippet : String) : String :=
  let text := lowerStr (title ++ " " ++ snippet)
  if hasWord "free" text then "Free (inferred)" else "Unknown"

/-- `/free/i.test(p)`: case-insensitive `free` substring, used by the price
filters and the sort's price rank. -/
def freeI (p : String) : Bool :=
  containsSub (lowerStr p) "free"

/-! ### Candidate records and result types -/

/-- A raw anchor row handed to the extractor by the HTML query capability:
link text, href attribute, and the snippet text chosen by the selector
chain. -/
structure Row where
  title : String
  href : String
  snippet : String
deriving DecidableEq, Repr

/-- A resolved search result `{title, url, snippet}`. -/
structure SRes where
  title : String
  url : String
  snippet : String
deriving DecidableEq, Repr

/-- An asset item of src/api/assets.js: `{title, url, price}`. -/
structure AItem where
  title : String
  url : String
  price : String
deriving DecidableEq, Repr

/-- An annotated item of the assets_plus handlers:
`{title, url, store, price, license}`. -/
structure PItem where
  title : String
  url : String
  store : String
  price : String
  license : String
deriving DecidableEq, Repr

/-! ### Deduplication (the `seen` set filter shared by every handler) -/

/-- First-occurrence deduplication by a string key, threading the `seen`
set exactly as the source filters do. -/
def dedupBy (key : α → String) : List α → List String → List α
  | [], _ => []
  | x :: xs, seen =>
    if key x ∈ seen then dedupBy key xs seen
    else x :: dedupBy key xs (key x :: seen)

/-! ### Stable insertion sort (model of the stable `Array.prototype.sort`) -/

/-- Insert `x` before the first element that does not strictly precede it,
preserving the relative order of tied elements. -/
def insertItem (lt : α → α → Bool) (x : α) : List α → List α
  | [] => [x]
  | y :: ys => if lt y x then y :: insertItem lt x ys else x :: y :: ys

/-- Stable insertion sort with a strict precedence test `lt`. -/
def isort (lt : α → α → Bool) : List α → List α
  | [] => []
  | x :: xs => insertItem lt x (isort lt xs)

/-- `storeRank`: marketplace before itch before anything else. -/
def storeRank (s : String) : Nat :=
  if s = "marketplace" then 0 else if s = "itch" then 1 else 2

/-- `priceRank`: `Free`-tagged before everything else. -/
def priceRank (p : String) : Nat :=
  if freeI p then 0 else 1

/-- Strict precedence for the assets_plus comparator: store rank, then price
rank, then title order (`localeCompare` modelled as code-point order). -/
def pitemLt (a b : PItem) : Bool :=
  if storeRank a.store ≠ storeRank b.store then
    decide (storeRank a.store < storeRank b.store)
  else if priceRank a.price ≠ priceRank b.price then
    decide (priceRank a.price < priceRank b.price)
  else compare a.title b.title == Ordering.lt

/-! ### DDG HTML extractors -/

/-- Record built from a primary-selector row in the search.js extractor. -/
def mkSearchRec (r : Row) : Option SRes :=
  (normalizeHref r.href).bind (fun u =>
    if isAllowed u then some ⟨trimStr r.title, u, trimStr r.snippet⟩ else none)

/-- Record built from a fallback-selector row in the search.js extractor,
which additionally requires a nonempty title and uses an empty snippet. -/
def mkSearchRecFb (r : Row) : Option SRes :=
  (normalizeHref r.href).bind (fun u =>
    if trimStr r.title ≠ "" ∧ isAllowed u then some ⟨trimStr r.title, u, ""⟩ else none)

/-- The pre-deduplication candidate list of the search.js extractor: primary
selector rows, falling back to the loose selector when none matched. -/
def preDedupSearch (primary fb : List Row) : List SRes :=
  let out1 := primary.filterMap mkSearchRec
  if out1 = [] then fb.filterMap mkSearchRecFb else out1

/-- `parseDDGHtml` of src/api/search.js: extract, fall back, deduplicate by
final URL keeping first occurrences. -/
def parseDDGHtmlSearch (primary fb : List Row) : List SRes :=
  dedupBy (fun r => r.url) (preDedupSearch primary fb) []

/-- The `add` step of the src/api/assets.js extractor: normalize the href
and keep only marketplace product URLs. -/
def mkAssetsRec (r : Row) : Option SRes :=
  (normalizeHref r.href).bind (fun u =>
    if isMarketplaceProduct u then some ⟨trimStr r.title, u, trimStr r.snippet⟩
    else none)

/-- Pre-deduplication candidates of the assets.js extractor; the fallback
selector passes an empty snippet. -/
def preDedupAssets (primary fb : List Row) : List SRes :=
  let out1 := primary.filterMap mkAssetsRec
  if out1 = [] then
    fb.filterMap (fun r => mkAssetsRec ⟨r.title, r.href, ""⟩)
  else out1

/-- `parseDDGHtml` of src/api/assets.js. -/
def parseDDGHtmlAssets (primary fb : List Row) : List SRes :=
  dedupBy (fun r => r.url) (preDedupAssets primary fb) []

/-! ### src/api/assets.js result shaping (truncate, map, price filter) -/

/-- One response item of assets.js: title with URL-derived fallback, the
canonical URL, and the inferred price. -/
def mkAssetItem (r : SRes) : AItem :=
  ⟨if r.title = "" then titleFromUrl r.url else r.title, r.url,
   inferPrice r.title r.snippet⟩

/-- Lines 107-111 of src/api/assets.js: truncate to `MAX_RESULTS = 10`,
then map to response items. -/
def assetsItems (results : List SRes) : List AItem :=
  (results.take 10).map mkAssetItem

/-- Lines 113-115 of src/api/assets.js: the only price filter, applied for
`price=free` (any case); there is no branch for other price values. -/
def assetsPriceFilter (price : String) (items : List AItem) : List AItem :=
  if price ≠ "" ∧ lowerStr price = "free" then
    items.filter (fun i => containsSub (lowerStr i.price) "free")
  else items

/-- The assets.js result pipeline as written: truncation and mapping first,
price filter second. -/
def assetsPipeline (results : List SRes) (price : String) : List AItem :=
  assetsPriceFilter price (assetsItems results)

/-- Modelled from the spec: the aggregation order the spec prescribes for
the same data — price filter first, truncation to the result cap last.
Used only to compare against `assetsPipeline`. -/
def assetsSpecOrder (results : List SRes) (price : String) : List AItem :=
  (assetsPriceFilter price (results.map mkAssetItem)).take 10

/-! ### assets_plus aggregation pipeline (src/unnamed/part_001, lines
402-432) -/

/-- Step 2 of the assets_plus handler: optional price filter. -/
def filterByPrice (price : String) (l : List PItem) : List PItem :=
  if price ≠ "" ∧ price ≠ "any" then
    if lowerStr price = "free" then l.filter (fun r => freeI r.price)
    else l.filter (fun r => !(freeI r.price))
  else l

/-- Step 3 of the assets_plus handler: optional license substring filter. -/
def filterByLicense (license : Option String) (l : List PItem) : List PItem :=
  match license with
  | some lic =>
    if lic ≠ "" ∧ trimStr lic ≠ "" then
      l.filter (fun r =>
        containsSub (lowerStr (if r.license = "" then "unknown" else r.license))
          (lowerStr lic))
    else l
  | none => l

/-- Step 4: deduplicate by URL. -/
def dedupStage (l : List PItem) : List PItem :=
  dedupBy (fun r => r.url) l []

/-- Step 5: the stable sort by store, price and title. -/
def sortPlus (l : List PItem) : List PItem :=
  isort pitemLt l

/-- Step 6: truncate to `MAX_RESULTS = 12`. -/
def truncStage (l : List PItem) : List PItem :=
  l.take 12

/-- The assets_plus handler aggregation, written as the source's sequence of
reassignments: price filter, license filter, dedupe, sort, truncate. -/
def plusPipeline (price : String) (license : Option String)
    (aggregate : List PItem) : List PItem :=
  let results1 :=
    if price ≠ "" ∧ price ≠ "any" then
      if lowerStr price = "free" then aggregate.filter (fun r => freeI r.price)
      else aggregate.filter (fun r => !(freeI r.price))
    else aggregate
  let results2 :=
    match license with
    | some lic =>
      if lic ≠ "" ∧ trimStr lic ≠ "" then
        results1.filter (fun r =>
          containsSub (lowerStr (if r.license = "" then "unknown" else r.license))
            (lowerStr lic))
      else results1
    | none => results1
  let results3 := dedupBy (fun r => r.url) results2 []
  let results4 := isort pitemLt results3
  results4.take 12

/-! ### Handlers with fetch traces (GET primary, POST fallback) -/

/-- A fetch issued by a handler: method plus the query it carries. -/
inductive FetchReq where
  | get : String → FetchReq
  | post : String → FetchReq
deriving DecidableEq, Repr

/-- The rows extracted from one DDG HTML payload: primary-selector rows and
fallback-selector rows. -/
structure DDGPayload where
  primary : List Row
  fb : List Row
deriving Repr

/-- An HTTP response: `ok` is a 200 success carrying query, count and
results; `err` carries the non-2xx status and error string. -/
inductive Resp (α : Type) where
  | ok : String → Nat → List α → Resp α
  | err : Nat → String → Resp α
deriving DecidableEq, Repr

/-- The count field of a response. -/
def respCount : Resp α → Nat
  | Resp.ok _ c _ => c
  | Resp.err _ _ => 0

/-- The results array of a response. -/
def respResults : Resp α → List α
  | Resp.ok _ _ r => r
  | Resp.err _ _ => []

/-- A handler run: the trace of fetches issued, and the response. -/
structure Run (α : Type) where
  trace : List FetchReq
  resp : Resp α
deriving Repr

/-- The DDG search handler (src/api/search.js lines 187-220): validate `q`,
GET, fall back to POST when extraction is empty, answer 200 with the result
count. -/
def searchHandler (q : String) (oracle : FetchReq → DDGPayload) : Run SRes :=
  if q = "" ∨ (trimStr q).length < 2 then
    ⟨[], Resp.err 400 "Missing or too short \x27q\x27"⟩
  else
    let pay := oracle (FetchReq.get q)
    let r1 := parseDDGHtmlSearch pay.primary pay.fb
    if r1 = [] then
      let pay2 := oracle (FetchReq.post q)
      let r2 := parseDDGHtmlSearch pay2.primary pay2.fb
      ⟨[FetchReq.get q, FetchReq.post q], Resp.ok q r2.length r2⟩
    else ⟨[FetchReq.get q], Resp.ok q r1.length r1⟩

/-- The DDG query string built by src/api/assets.js:
`site:www.unrealengine.com /marketplace/ <q> [<kind>]`. -/
def buildAssetsQuery (q kind : String) : String :=
  let terms := if kind = "" then [q] else [q, kind]
  "site:www.unrealengine.com /marketplace/ " ++ String.intercalate " " terms

/-- The assets.js handler: validate `q`, GET, fall back to POST with the
same query when extraction is empty, shape items, answer 200. -/
def assetsHandler (q kind price : String) (oracle : FetchReq → DDGPayload) :
    Run AItem :=
  if q = "" ∨ (trimStr q).length < 2 then
    ⟨[], Resp.err 400 "Missing or too short \x27q\x27"⟩
  else
    let query := buildAssetsQuery q kind
    let pay := oracle (FetchReq.get query)
    let r1 := parseDDGHtmlAssets pay.primary pay.fb
    if r1 = [] then
      let pay2 := oracle (FetchReq.post query)
      let r2 := parseDDGHtmlAssets pay2.primary pay2.fb
      let items := assetsPipeline r2 price
      ⟨[FetchReq.get query, FetchReq.post query], Resp.ok q items.length items⟩
    else
      let items := assetsPipeline r1 price
      ⟨[FetchReq.get query], Resp.ok q items.length items⟩

/-! ### part_002 assets_plus provider (the `__NEXT_DATA__` + itch variant) -/

/-- The part_002 assets_plus handler on the candidate lists its two source
searches produced: optional price and license filters, the stable sort, and
a response whose `count` is taken before the truncation inside the JSON
construction (line 181). -/
def v20AssetsHandler (q : String) (market itch : List PItem) (price : String)
    (license : Option String) : Resp PItem :=
  if q = "" ∨ (trimStr q).length < 2 then
    Resp.err 400 "Missing or too short \x27q\x27"
  else
    let results0 := market ++ itch
    let results1 :=
      if price ≠ "any" then
        if lowerStr price = "free" then results0.filter (fun r => freeI r.price)
        else results0.filter (fun r => !(freeI r.price))
      else results0
    let results2 :=
      match license with
      | some lic =>
        if lic ≠ "" ∧ trimStr lic ≠ "" then
          results1.filter (fun r =>
            containsSub
              (lowerStr (if r.license = "" then "unknown" else r.license))
              (lowerStr lic))
        else results1
      | none => results1
    let results3 := isort pitemLt results2
    Resp.ok q results3.length (results3.take 12)

/-! ### Sitemap processing (src/api/search.js sitemap handler and
src/unnamed/part_002 sitemap handler) -/

/-- A parsed sitemap document: the `<loc>` values under
`sitemapindex/sitemap` and under `urlset/url` (`none` for an entry without a
location). -/
structure SMDoc where
  indexLocs : List (Option String)
  urlsetLocs : List (Option String)
deriving Repr

/-- A scored sitemap entry `{title, url, score}`. -/
structure Found where
  title : String
  url : String
  sc : Int
deriving DecidableEq, Repr

/-- The v2.1 relevance score (src/api/search.js `score`): +2 per term
contained in lowercased title+url, +1 for the blueprint keyword, +3 boosts
for documentation hosts, -2 for forums, -1 for marketplace paths. -/
def scoreV21 (url title : String) (terms : List String) : Int :=
  let text := lowerStr (title ++ " " ++ url)
  let base := terms.foldl (fun s t =>
    if t = "" then s
    else
      let s1 := if containsSub text t then s + 2 else s
      if t = "blueprint" ∨ t = "blueprints" then s1 + 1 else s1) 0
  let b1 := if containsSub (lowerStr url) "dev.epicgames.com/documentation" then
    base + 3 else base
  let b2 := if containsSub (lowerStr url) "docs.unrealengine.com" then b1 + 3
    else b1
  let b3 := if containsSub (lowerStr url) "forums.unrealengine.com" then b2 - 2
    else b2
  if containsSub (lowerStr url) "unrealengine.com/marketplace" then b3 - 1 else b3

/-- The v2.0 relevance score (src/unnamed/part_002 `score`): +2 per term,
+1 for the blueprint keyword, +2 boosts for documentation hosts, no
penalties. -/
def scoreV20 (url title : String) (terms : List String) : Int :=
  let text := lowerStr (title ++ " " ++ url)
  let base := terms.foldl (fun s t =>
    if t = "" then s
    else
      let s1 := if containsSub text t then s + 2 else s
      if t = "blueprint" ∨ t = "blueprints" then s1 + 1 else s1) 0
  let b1 := if containsSub (lowerStr url) "dev.epicgames.com/documentation" then
    base + 2 else base
  if containsSub (lowerStr url) "docs.unrealengine.com" then b1 + 2 else b1

/-- Scan a list of optional locations: preprocess with `prep`, skip empty
and already-seen ones, score, and keep strictly positive scores, threading
the seen set exactly as the source loops do. -/
def scanLocs (sf : String → String → List String → Int) (prep : String → String)
    (terms : List String) : List (Option String) → List String →
    List String × List Found
  | [], seen => (seen, [])
  | none :: rest, seen => scanLocs sf prep terms rest seen
  | some l :: rest, seen =>
    let loc := prep l
    if loc = "" then scanLocs sf prep terms rest seen
    else if loc ∈ seen then scanLocs sf prep terms rest seen
    else
      let t := titleFromUrl loc
      let sc := sf loc t terms
      if 0 < sc then
        let out := scanLocs sf prep terms rest (loc :: seen)
        (out.1, ⟨t, loc, sc⟩ :: out.2)
      else scanLocs sf prep terms rest seen

/-- Outcome of processing child sitemaps: the threaded seen set, the
entries found, and the trace of child locations actually fetched. -/
structure ChildOut where
  seen : List String
  found : List Found
  fetched : List String
deriving Repr

/-- The v2.1 child loop: skip missing locations, fetch each child (the
oracle returns the child's urlset locations, or `none` for a failed fetch or
a child without a urlset), and scan with trimming. -/
def procChildren (fetch : String → Option (List (Option String)))
    (terms : List String) : List (Option String) → List String → ChildOut
  | [], seen => ⟨seen, [], []⟩
  | none :: rest, seen => procChildren fetch terms rest seen
  | some c :: rest, seen =>
    match fetch c with
    | none =>
      let o := procChildren fetch terms rest seen
      ⟨o.seen, o.found, c :: o.fetched⟩
    | some locs =>
      let s1 := scanLocs scoreV21 trimStr terms locs seen
      let o := procChildren fetch terms rest s1.1
      ⟨o.seen, s1.2 ++ o.found, c :: o.fetched⟩

/-- Outcome of processing one sitemap document. -/
structure ProcOut where
  fetched : List String
  found : List Found
  seen : List String
deriving Repr

/-- Per-sitemap processing of the src/api/search.js sitemap handler: take
the first 3 listed children (`arr.slice(0, 3)`), process them, then scan the
document's own urlset entries (untrimmed, as in the source). -/
def processV21 (fetch : String → Option (List (Option String)))
    (terms : List String) (d : SMDoc) (seen0 : List String) : ProcOut :=
  let childList := d.indexLocs.take 3
  let co := procChildren fetch terms childList seen0
  let du := scanLocs scoreV21 (fun s => s) terms d.urlsetLocs co.seen
  ⟨co.fetched, co.found ++ du.2, du.1⟩

/-- The v2.0 `urlEntries`: trimmed nonempty locations from the index part
followed by those from the urlset part. -/
def urlEntriesOf (d : SMDoc) : List String :=
  ((d.indexLocs.reduceOption.map trimStr).filter (fun l => l ≠ ""))
    ++ ((d.urlsetLocs.reduceOption.map trimStr).filter (fun l => l ≠ ""))

/-- The v2.0 child loop over the selected child locations. -/
def procChildrenV20 (fetch : String → Option (List (Option String)))
    (terms : List String) : List String → List String → ChildOut
  | [], seen => ⟨seen, [], []⟩
  | c :: rest, seen =>
    match fetch c with
    | none =>
      let o := procChildrenV20 fetch terms rest seen
      ⟨o.seen, o.found, c :: o.fetched⟩
    | some locs =>
      let s1 := scanLocs scoreV20 trimStr terms locs seen
      let o := procChildrenV20 fetch terms rest s1.1
      ⟨o.seen, s1.2 ++ o.found, c :: o.fetched⟩

/-- Per-sitemap processing of the src/unnamed/part_002 sitemap handler: the
children fetched are the first 3 `urlEntries` matching the sitemap-filename
pattern; afterwards every `urlEntries` entry is scanned directly. -/
def processV20 (fetch : String → Option (List (Option String)))
    (terms : List String) (d : SMDoc) (seen0 : List String) : ProcOut :=
  let entries := urlEntriesOf d
  let children := (entries.filter sitemapLike).take 3
  let co := procChildrenV20 fetch terms children seen0
  let du := scanLocs scoreV20 (fun s => s) terms (entries.map some) co.seen
  ⟨co.fetched, co.found ++ du.2, du.1⟩

/-- The pool of locations a v2.1 result can come from: the trimmed urlset
entries of the (at most 3) fetched children, plus the document's own urlset
entries. -/
def v21Pool (fetch : String → Option (List (Option String))) (d : SMDoc) :
    List String :=
  ((d.indexLocs.take 3).reduceOption.flatMap (fun c =>
    (((fetch c).getD []).reduceOption).map trimStr))
    ++ d.urlsetLocs.reduceOption

/-! ### part_000 content endpoint -/

/-- What the content endpoint does before any network activity: reject, or
attempt the fetch of the given URL. -/
inductive ContentStep where
  | reject : Nat → String → ContentStep
  | fetchAttempt : String → ContentStep
deriving DecidableEq, Repr

/-- The guard of src/unnamed/part_000: 400 unless `url` is present, parses,
and has an allowlisted hostname; otherwise the fetch is attempted. -/
def contentHandler (url : Option String) : ContentStep :=
  match url with
  | none => ContentStep.reject 400 "Missing or disallowed \x27url\x27"
  | some u =>
    if u = "" ∨ isAllowed u = false then
      ContentStep.reject 400 "Missing or disallowed \x27url\x27"
    else ContentStep.fetchAttempt u

/-! ### Lemmas about deduplication -/

theorem dedupBy_subset {key : α → String} {l : List α} {seen : List String}
    {y : α} (h : y ∈ dedupBy key l seen) : y ∈ l := by
  induction l generalizing seen with
  | nil => simp [dedupBy] at h
  | cons x xs ih =>
    simp only [dedupBy] at h
    split at h
    · exact List.mem_cons_of_mem x (ih h)
    · rcases List.mem_cons.mp h with h1 | h2
      · exact h1 ▸ List.mem_cons_self x xs
      · exact List.mem_cons_of_mem x (ih h2)

theorem dedupBy_keys_not_seen {key : α → String} {l : List α}
    {seen : List String} {y : α} (h : y ∈ dedupBy key l seen) :
    key y ∉ seen := by
  induction l generalizing seen with
  | nil => simp [dedupBy] at h
  | cons x xs ih =>
    simp only [dedupBy] at h
    split at h
    · exact ih h
    · next hx =>
      rcases List.mem_cons.mp h with h1 | h2
      · exact h1 ▸ hx
      · intro hc
        exact (ih h2) (List.mem_cons_of_mem _ hc)

theorem dedupBy_nodup (key : α → String) (l : List α) (seen : List String) :
    ((dedupBy key l seen).map key).Nodup := by
  induction l generalizing seen with
  | nil => simp [dedupBy]
  | cons x xs ih =>
    simp only [dedupBy]
    split
    · exact ih seen
    · refine List.nodup_cons.mpr ⟨?_, ih (key x :: seen)⟩
      intro hmem
      rcases List.mem_map.mp hmem with ⟨y, hy, hky⟩
      exact (dedupBy_keys_not_seen hy) (hky ▸ List.mem_cons_self _ _)

theorem dedupBy_mem_keys {key : α → String} {l : List α} {seen : List String}
    {k : String} (hk : k ∉ seen) (hm : k ∈ l.map key) :
    k ∈ (dedupBy key l seen).map key := by
  induction l generalizing seen with
  | nil => simp at hm
  | cons x xs ih =>
    simp only [dedupBy]
    rcases List.mem_map.mp hm with ⟨y, hy, hky⟩
    split
    · next hx =>
      rcases List.mem_cons.mp hy with h1 | h2
      · exact absurd ((h1 ▸ hky : key x = k) ▸ hx) hk
      · exact ih hk (List.mem_map.mpr ⟨y, h2, hky⟩)
    · rcases List.mem_cons.mp hy with h1 | h2
      · exact List.mem_map.mpr ⟨x, List.mem_cons_self _ _, h1 ▸ hky⟩
      · by_cases hkx : key x = k
        · exact List.mem_map.mpr ⟨x, List.mem_cons_self _ _, hkx⟩
        · have : k ∉ key x :: seen := by
            intro hc
            rcases List.mem_cons.mp hc with h3 | h4
            · exact hkx h3.symm
            · exact hk h4
          have := ih this (List.mem_map.mpr ⟨y, h2, hky⟩)
          simp only [List.map_cons]
          exact List.mem_cons_of_mem _ this

theorem dedupBy_find {key : α → String} (l : List α) {seen : List String}
    {k : String} (hk : k ∉ seen) :
    (dedupBy key l seen).find? (fun y => decide (key y = k))
      = l.find? (fun y => decide (key y = k)) := by
  induction l generalizing seen with
  | nil => simp [dedupBy]
  | cons x xs ih =>
    simp only [dedupBy]
    split
    · next hx =>
      have hne : key x ≠ k := fun h => hk (h ▸ hx)
      rw [ih hk]
      rw [List.find?_cons]
      simp [hne]
    · next hx =>
      by_cases hkx : key x = k
      · rw [List.find?_cons, List.find?_cons]
        simp [hkx]
      · rw [List.find?_cons, List.find?_cons]
        simp only [decide_eq_false hkx]
        apply ih
        intro hc
        rcases List.mem_cons.mp hc with h1 | h2
        · exact hkx h1.symm
        · exact hk h2

theorem nodup_count_one {l : List α} [DecidableEq α] (h : l.Nodup)
    {a : α} (hm : a ∈ l) : l.count a = 1 :=
  List.count_eq_one_of_mem h hm

/-! ### Lemmas about the stable sort -/

theorem insertItem_perm (lt : α → α → Bool) (x : α) (l : List α) :
    List.Perm (insertItem lt x l) (x :: l) := by
  induction l with
  | nil => simp [insertItem]
  | cons y ys ih =>
    simp only [insertItem]
    split
    · exact List.Perm.trans (List.Perm.cons y ih) (List.Perm.swap x y ys)
    · exact List.Perm.refl _

theorem isort_perm (lt : α → α → Bool) (l : List α) :
    List.Perm (isort lt l) l := by
  induction l with
  | nil => simp [isort]
  | cons x xs ih =>
    exact List.Perm.trans (insertItem_perm lt x (isort lt xs))
      (List.Perm.cons x ih)

theorem isort_length (lt : α → α → Bool) (l : List α) :
    (isort lt l).length = l.length :=
  (isort_perm lt l).length_eq

theorem mem_isort {lt : α → α → Bool} {l : List α} {a : α} :
    a ∈ isort lt l ↔ a ∈ l :=
  (isort_perm lt l).mem_iff

/-! ### Lemmas about sitemap scanning -/

theorem scanLocs_found_mem {sf : String → String → List String → Int}
    {prep : String → String} {terms : List String}
    {src : List (Option String)} {seen : List String} {f : Found}
    (h : f ∈ (scanLocs sf prep terms src seen).2) :
    f.url ∈ src.reduceOption.map prep := by
  induction src generalizing seen with
  | nil => simp [scanLocs] at h
  | cons o rest ih =>
    cases o with
    | none =>
      simp only [scanLocs] at h
      simpa [List.reduceOption] using ih h
    | some l =>
      simp only [scanLocs] at h
      by_cases h1 : prep l = ""
      · simp only [h1, if_pos rfl] at h
        simp only [List.reduceOption_cons_of_some, List.map_cons]
        exact List.mem_cons_of_mem _ (ih (by simpa [h1] using h))
      · simp only [if_neg h1] at h
        by_cases h2 : prep l ∈ seen
        · simp only [if_pos h2] at h
          simp only [List.reduceOption_cons_of_some, List.map_cons]
          exact List.mem_cons_of_mem _ (ih h)
        · simp only [if_neg h2] at h
          simp only [List.reduceOption_cons_of_some, List.map_cons]
          by_cases h3 : 0 < sf (prep l) (titleFromUrl (prep l)) terms
          · simp only [if_pos h3] at h
            rcases List.mem_cons.mp h with h4 | h5
            · exact h4 ▸ List.mem_cons_self _ _
            · exact List.mem_cons_of_mem _ (ih h5)
          · simp only [if_neg h3] at h
            exact List.mem_cons_of_mem _ (ih h)

theorem procChildren_fetched (fetch : String → Option (List (Option String)))
    (terms : List String) (src : List (Option String)) (seen : List String) :
    (procChildren fetch terms src seen).fetched = src.reduceOption := by
  induction src generalizing seen with
  | nil => simp [procChildren, List.reduceOption]
  | cons o rest ih =>
    cases o with
    | none => simp [procChildren, List.reduceOption, ih]
    | some c =>
      simp only [procChildren]
      cases fetch c with
      | none => simp [List.reduceOption_cons_of_some, ih]
      | some locs => simp [List.reduceOption_cons_of_some, ih]

theorem procChildren_found_mem {fetch : String → Option (List (Option String))}
    {terms : List String} {src : List (Option String)} {seen : List String}
    {f : Found} (h : f ∈ (procChildren fetch terms src seen).found) :
    f.url ∈ src.reduceOption.flatMap (fun c =>
      (((fetch c).getD []).reduceOption).map trimStr) := by
  induction src generalizing seen with
  | nil => simp [procChildren] at h
  | cons o rest ih =>
    cases o with
    | none =>
      simp only [procChildren] at h
      simpa [List.reduceOption] using ih h
    | some c =>
      simp only [procChildren] at h
      simp only [List.reduceOption_cons_of_some, List.flatMap_cons]
      cases hf : fetch c with
      | none =>
        rw [hf] at h
        simp only at h
        exact List.mem_append_right _ (ih h)
      | some locs =>
        rw [hf] at h
        simp only at h
        rcases List.mem_append.mp h with h1 | h2
        · refine List.mem_append_left _ ?_
          have := scanLocs_found_mem h1
          simpa [hf] using this
        · exact List.mem_append_right _ (ih h2)

theorem procChildrenV20_fetched
    (fetch : String → Option (List (Option String))) (terms : List String)
    (src : List String) (seen : List String) :
    (procChildrenV20 fetch terms src seen).fetched = src := by
  induction src generalizing seen with
  | nil => simp [procChildrenV20]
  | cons c rest ih =>
    simp only [procChildrenV20]
    cases fetch c with
    | none => simp [ih]
    | some locs => simp [ih]

/-! ### Pipeline helper lemmas -/

theorem plusPipeline_eq_stages (price : String) (license : Option String)
    (agg : List PItem) :
    plusPipeline price license agg
      = truncStage (sortPlus (dedupStage
          (filterByLicense license (filterByPrice price agg)))) := rfl

theorem filterByLicense_subset {license : Option String} {l : List PItem}
    {r : PItem} (h : r ∈ filterByLicense license l) : r ∈ l := by
  cases license with
  | none => exact h
  | some lic =>
    by_cases hc : lic ≠ "" ∧ trimStr lic ≠ ""
    · rw [filterByLicense, if_pos hc] at h
      exact (List.mem_filter.mp h).1
    · rw [filterByLicense, if_neg hc] at h
      exact h

theorem mem_plusPipeline {price : String} {license : Option String}
    {agg : List PItem} {r : PItem} (h : r ∈ plusPipeline price license agg) :
    r ∈ filterByPrice price agg := by
  rw [plusPipeline_eq_stages] at h
  have h1 : r ∈ sortPlus (dedupStage
      (filterByLicense license (filterByPrice price agg))) :=
    List.take_subset 12 _ h
  have h2 := mem_isort.mp h1
  exact filterByLicense_subset (dedupBy_subset h2)

theorem assetsPipeline_nil (price : String) : assetsPipeline [] price = [] := by
  simp [assetsPipeline, assetsItems, assetsPriceFilter]

end UnrealProxy

namespace UnrealProxy

/-! ## Claim theorems -/

/-- C7 counterexample: the href `/about` has no http scheme and does not
resolve to the redirect-wrapper path, yet `normalizeHref` yields no value
instead of the base-resolved absolute URL
`https://duckduckgo.com/about`. -/
theorem relative_href_dropped :
    hasHttpScheme "/about" = false
      ∧ (ddgResolve "/about").pathname = "/about"
      ∧ normalizeHref "/about" = none := by
  refine ⟨by decide, by decide, by decide⟩

/-- C7 (amended): a scheme-less raw href is resolved against the DDG origin
only to detect the `/l/` redirect wrapper.  If the resolved pathname is not
`/l/`, canonicalization yields no value; if it is the wrapper and carries a
nonempty `uddg` parameter, the decoded inner URL is returned. -/
theorem normalize_relative_wrapper_only (href : String)
    (h1 : hasHttpScheme href = false) :
    ((ddgResolve href).pathname ≠ "/l/" → normalizeHref href = none) ∧
    (∀ u, (ddgResolve href).pathname = "/l/" →
      searchParamGet (ddgResolve href).query "uddg" = some u → u ≠ "" →
      normalizeHref href = decodeURIComponentOpt u) := by
  by_cases h0 : href = ""
  · subst h0
    constructor
    · intro _; rfl
    · intro u hp
      exact absurd hp (by decide)
  · constructor
    · intro hp
      simp only [normalizeHref, if_neg h0, h1, Bool.false_eq_true,
        if_false, if_neg hp]
    · intro u hp hu hne
      simp only [normalizeHref, if_neg h0, h1, Bool.false_eq_true, if_false,
        if_pos hp, hu, if_neg hne]

/-- C7 witness: a wrapper href with a nonempty `uddg` parameter decodes to
the inner URL. -/
theorem normalize_relative_wrapper_only_witness :
    normalizeHref "/l/?uddg=https%3A%2F%2Fdocs.unrealengine.com%2Fa"
      = decodeURIComponentOpt "https://docs.unrealengine.com/a" :=
  (normalize_relative_wrapper_only
      "/l/?uddg=https%3A%2F%2Fdocs.unrealengine.com%2Fa" (by decide)).2
    "https://docs.unrealengine.com/a" (by decide) (by decide) (by decide)

/-- C8 counterexample: `/l/?uddg=hello` canonicalizes successfully to
`hello`, but canonicalizing that output fails, so
`canonicalize (canonicalize u) = canonicalize u` does not hold for every
previously-successful input. -/
theorem canonicalize_not_idempotent :
    normalizeHref "/l/?uddg=hello" = some "hello"
      ∧ normalizeHref "hello" = none := by
  refine ⟨by decide, by decide⟩

/-- C8 (amended): canonicalization is idempotent on every successful output
that itself carries an http/https scheme — in particular on all absolute
inputs accepted as-is; only a wrapper whose decoded `uddg` value is not an
absolute http(s) URL escapes this. -/
theorem canonicalize_idempotent_on_absolute (u v : String)
    (_h : normalizeHref u = some v) (hv : hasHttpScheme v = true) :
    normalizeHref v = some v := by
  have hne : v ≠ "" := by
    intro h0
    rw [h0] at hv
    exact absurd hv (by decide)
  simp only [normalizeHref, if_neg hne, hv, if_true]

/-- C8 witness: an absolute documentation URL canonicalizes to itself, and
re-canonicalizing returns it unchanged. -/
theorem canonicalize_idempotent_on_absolute_witness :
    normalizeHref "https://docs.unrealengine.com/a"
      = some "https://docs.unrealengine.com/a" :=
  canonicalize_idempotent_on_absolute "https://docs.unrealengine.com/a"
    "https://docs.unrealengine.com/a" (by decide) (by decide)

/-- C4 counterexample: `/marketplace/en-US/product/free-icons` is a
marketplace product-path URL (it contains both `/marketplace/` and
`/product/`), yet the patched classifier rejects it, because the listing
denylist substring `/free` also matches the product slug. -/
theorem product_free_slug_misclassified :
    containsSub (lowerStr "/marketplace/en-US/product/free-icons")
        "/marketplace/" = true
      ∧ containsSub (lowerStr "/marketplace/en-US/product/free-icons")
        "/product/" = true
      ∧ isProductLike MARKET_HOST "/marketplace/en-US/product/free-icons"
        = false := by
  refine ⟨by decide, by decide, by decide⟩

/-- C4 (amended): the classifier is exact up to the denylist: marketplace
listing-style URLs (category, free-listing, search, collections, pagination)
are never page-like, and a marketplace URL containing `/marketplace/` is
page-like exactly when its path avoids every denylist substring (so product
paths whose slug matches a denylist substring such as `/free` are also
rejected); itch root-host URLs, `/t/` tag paths and paths deeper than one
segment are never page-like, and creator-subdomain URLs of depth at most 1
always are. -/
theorem classifier_exactness (host p : String) :
    (host = MARKET_HOST → containsSub (lowerStr p) "/marketplace/" = false →
      isProductLike host p = false) ∧
    (host = MARKET_HOST → marketDenyHit (lowerStr p) = true →
      isProductLike host p = false) ∧
    (host = MARKET_HOST → containsSub (lowerStr p) "/marketplace/" = true →
      marketDenyHit (lowerStr p) = false → isProductLike host p = true) ∧
    (isProductLike ITCH_HOST p = false) ∧
    (endsWithStr host ITCH_HOST = true → startsWithStr p "/t/" = true →
      isProductLike host p = false) ∧
    (endsWithStr host ITCH_HOST = true → 2 ≤ depthOf p →
      isProductLike host p = false) ∧
    (endsWithStr host ITCH_HOST = true → host ≠ ITCH_HOST →
      startsWithStr p "/t/" = false → depthOf p ≤ 1 →
      isProductLike host p = true) := by
  refine ⟨?_, ?_, ?_, ?_, ?_, ?_, ?_⟩
  · intro hM hc
    subst hM
    simp [isProductLike, hc]
  · intro hM hd
    subst hM
    by_cases hc : containsSub (lowerStr p) "/marketplace/" = true
    · simp [isProductLike, hc, hd]
    · simp only [Bool.not_eq_true] at hc
      simp [isProductLike, hc]
  · intro hM hc hd
    subst hM
    simp [isProductLike, hc, hd]
  · have h1 : (ITCH_HOST = MARKET_HOST) = False := by decide
    have he : endsWithStr ITCH_HOST ITCH_HOST = true := by decide
    simp [isProductLike, h1, he]
  · intro hi ht
    by_cases hM : host = MARKET_HOST
    · rw [hM] at hi
      exact absurd hi (by decide)
    · simp [isProductLike, hM, hi, ht]
  · intro hi hdep
    by_cases hM : host = MARKET_HOST
    · rw [hM] at hi
      exact absurd hi (by decide)
    · by_cases hr : host = ITCH_HOST
      · have h1 : (ITCH_HOST = MARKET_HOST) = False := by decide
        have he : endsWithStr ITCH_HOST ITCH_HOST = true := by decide
        subst hr
        simp [isProductLike, h1, he]
      · by_cases ht : startsWithStr p "/t/" = true
        · simp [isProductLike, hM, hi, hr, ht]
        · simp only [Bool.not_eq_true] at ht
          have hdec : ¬(depthOf p ≤ 1) := by omega
          simp [isProductLike, hM, hi, hr, ht, hdec]
  · intro hi hr ht hdep
    by_cases hM : host = MARKET_HOST
    · rw [hM] at hi
      exact absurd hi (by decide)
    · simp [isProductLike, hM, hi, hr, ht, hdep]

/-- C4 witness: a product-path URL avoiding the denylist is accepted, a
category listing is rejected, and a depth-1 creator-subdomain itch URL is
accepted. -/
theorem classifier_exactness_witness :
    isProductLike MARKET_HOST "/marketplace/en-US/product/sword-pack" = true
      ∧ isProductLike MARKET_HOST "/marketplace/en-us/category/props" = false
      ∧ isProductLike "author.itch.io" "/sword-pack" = true :=
  ⟨(classifier_exactness MARKET_HOST
      "/marketplace/en-US/product/sword-pack").2.2.1 rfl (by decide)
      (by decide),
   (classifier_exactness MARKET_HOST
      "/marketplace/en-us/category/props").2.1 rfl (by decide),
   (classifier_exactness "author.itch.io" "/sword-pack").2.2.2.2.2.2
      (by decide) (by decide) (by decide) (by decide)⟩

/-- C10: the content endpoint attempts its fetch exactly for a present,
parseable `url` whose hostname ends with one of the four allowlisted
domains; in every other case it performs no fetch and answers 400 with
error `Missing or disallowed 'url'`. -/
theorem content_url_gate (url : Option String) :
    (∀ u, contentHandler url = ContentStep.fetchAttempt u ↔
      (url = some u ∧ u ≠ "" ∧ isAllowed u = true)) ∧
    ((∀ u, ¬(url = some u ∧ u ≠ "" ∧ isAllowed u = true)) →
      contentHandler url
        = ContentStep.reject 400 "Missing or disallowed \x27url\x27") ∧
    ALLOWLIST = ["dev.epicgames.com", "docs.unrealengine.com",
      "forums.unrealengine.com", "www.unrealengine.com"] := by
  refine ⟨?_, ?_, rfl⟩
  · intro u
    cases url with
    | none => simp [contentHandler]
    | some w =>
      simp only [contentHandler]
      by_cases hw : w = "" ∨ isAllowed w = false
      · rw [if_pos hw]
        constructor
        · intro h
          exact absurd h (by simp)
        · rintro ⟨hwu, hne, hall⟩
          injection hwu with hwu2
          subst hwu2
          rcases hw with h1 | h2
          · exact absurd h1 hne
          · rw [hall] at h2
            exact Bool.noConfusion h2
      · rw [if_neg hw]
        push_neg at hw
        constructor
        · intro h
          injection h with h2
          subst h2
          refine ⟨rfl, hw.1, ?_⟩
          cases hb : isAllowed w with
          | false => exact absurd hb hw.2
          | true => rfl
        · rintro ⟨hwu, h1, h2⟩
          injection hwu with hwu2
          subst hwu2
          rfl
  · intro hno
    cases url with
    | none => rfl
    | some w =>
      simp only [contentHandler]
      by_cases hw : w = "" ∨ isAllowed w = false
      · rw [if_pos hw]
      · push_neg at hw
        exfalso
        refine hno w ⟨rfl, hw.1, ?_⟩
        cases hb : isAllowed w with
        | false => exact absurd hb hw.2
        | true => rfl

/-- C10 witness: an allowlisted documentation URL reaches the fetch, and a
foreign URL is rejected with the 400 error. -/
theorem content_url_gate_witness :
    contentHandler (some "https://dev.epicgames.com/documentation/en-us")
      = ContentStep.fetchAttempt "https://dev.epicgames.com/documentation/en-us"
    ∧ contentHandler (some "https://evil.example.com/x")
      = ContentStep.reject 400 "Missing or disallowed \x27url\x27" :=
  ⟨((content_url_gate (some "https://dev.epicgames.com/documentation/en-us")).1
      "https://dev.epicgames.com/documentation/en-us").mpr
      ⟨rfl, by decide, by decide⟩,
   (content_url_gate (some "https://evil.example.com/x")).2.1 (by
      rintro u ⟨hu, _, hall⟩
      cases Option.some.inj hu
      exact absurd hall (by decide))⟩

/-! ### Nodup-of-urls helper lemmas -/

theorem urls_nodup_of_sublist (key : α → String) {l m : List α}
    (h : List.Sublist l m) (hm : (m.map key).Nodup) : (l.map key).Nodup :=
  hm.sublist (h.map key)

theorem urls_nodup_plusPipeline (price : String) (license : Option String)
    (agg : List PItem) :
    ((plusPipeline price license agg).map (fun i => i.url)).Nodup := by
  rw [plusPipeline_eq_stages]
  have h3 : ((dedupStage
      (filterByLicense license (filterByPrice price agg))).map
        (fun r => r.url)).Nodup := dedupBy_nodup _ _ _
  have h4 : ((sortPlus (dedupStage
      (filterByLicense license (filterByPrice price agg)))).map
        (fun r => r.url)).Nodup := by
    have hp := isort_perm pitemLt
      (dedupStage (filterByLicense license (filterByPrice price agg)))
    exact ((hp.map (fun r => r.url)).nodup_iff).mpr h3
  exact urls_nodup_of_sublist _ (List.take_sublist 12 _) h4

theorem assetsItems_urls (results : List SRes) :
    (assetsItems results).map (fun i => i.url)
      = ((results.map (fun r => r.url)).take 10) := by
  rw [assetsItems, List.map_map, List.map_take]
  rfl

theorem urls_nodup_assets (primary fb : List Row) (price : String) :
    ((assetsPipeline (parseDDGHtmlAssets primary fb) price).map
      (fun i => i.url)).Nodup := by
  have h0 : ((parseDDGHtmlAssets primary fb).map (fun r => r.url)).Nodup :=
    dedupBy_nodup _ _ _
  have h1 : ((assetsItems (parseDDGHtmlAssets primary fb)).map
      (fun i => i.url)).Nodup := by
    rw [assetsItems_urls]
    exact h0.sublist (List.take_sublist 10 _)
  rw [assetsPipeline, assetsPriceFilter]
  split
  · exact urls_nodup_of_sublist _ (List.filter_sublist _) h1
  · exact h1

/-- C1: in each DDG-based handler, the final result list has pairwise
distinct canonical URLs; any URL among the extracted candidates appears
exactly once after deduplication; and the entry kept for a URL is the first
extracted occurrence (so two raw rows whose redirect wrappers decode to one
destination yield exactly one entry, the earlier one).  The same
distinctness holds after the assets.js shaping and after the assets_plus
aggregation. -/
theorem ddg_dedup_first_wins (primary fb : List Row) (u : String)
    (price : String) (license : Option String) (agg : List PItem) :
    ((parseDDGHtmlSearch primary fb).map (fun r => r.url)).Nodup ∧
    (u ∈ (preDedupSearch primary fb).map (fun r => r.url) →
      ((parseDDGHtmlSearch primary fb).map (fun r => r.url)).count u = 1) ∧
    ((parseDDGHtmlSearch primary fb).find? (fun r => decide (r.url = u))
      = (preDedupSearch primary fb).find? (fun r => decide (r.url = u))) ∧
    ((assetsPipeline (parseDDGHtmlAssets primary fb) price).map
      (fun i => i.url)).Nodup ∧
    ((plusPipeline price license agg).map (fun i => i.url)).Nodup := by
  refine ⟨dedupBy_nodup _ _ _, ?_, ?_,
    urls_nodup_assets primary fb price,
    urls_nodup_plusPipeline price license agg⟩
  · intro hm
    have hmem := dedupBy_mem_keys (List.not_mem_nil _) hm
    exact List.count_eq_one_of_mem (dedupBy_nodup _ _ _) hmem
  · exact dedupBy_find _ (List.not_mem_nil _)

def wRowA : Row :=
  ⟨"Intro A", "/l/?uddg=https%3A%2F%2Fdocs.unrealengine.com%2Fintro", "s1"⟩

def wRowB : Row :=
  ⟨"Intro B", "/l/?uddg=https%3A//docs.unrealengine.com/intro", "s2"⟩

/-- C1 witness: two distinct wrapper encodings of the same destination
produce exactly one entry for that URL. -/
theorem ddg_dedup_first_wins_witness :
    ((parseDDGHtmlSearch [wRowA, wRowB] []).map (fun r => r.url)).count
      "https://docs.unrealengine.com/intro" = 1 :=
  (ddg_dedup_first_wins [wRowA, wRowB] []
    "https://docs.unrealengine.com/intro" "any" none []).2.1 (by decide)

def cex2Rows : List SRes :=
  ((List.range 10).map (fun i =>
    ⟨"pack " ++ toString i,
     "https://www.unrealengine.com/marketplace/en-US/product/p" ++ toString i,
     ""⟩))
  ++ [⟨"free icons",
       "https://www.unrealengine.com/marketplace/en-US/product/free-icons",
       ""⟩]

/-- C2 counterexample: with eleven extracted candidates whose only
Free-tagged item is the eleventh, the assets.js handler returns an empty
list for `price=free` because it truncates to 10 before filtering, while
the spec order (filter, then truncate) would keep the free item. -/
theorem assets_truncates_before_price_filter :
    assetsPipeline cex2Rows "free" = []
      ∧ assetsSpecOrder cex2Rows "free" ≠ [] := by
  refine ⟨by decide, by decide⟩

/-- C2 (amended): the assets_plus handler aggregation runs price filter,
license filter, dedupe, sort, truncate in this order, so its output length
is the filtered-deduplicated count capped at 12; the basic assets.js
handler instead truncates to 10 and maps before applying its price
filter. -/
theorem plus_pipeline_stage_order (price : String) (license : Option String)
    (agg : List PItem) (results : List SRes) :
    plusPipeline price license agg
      = truncStage (sortPlus (dedupStage
          (filterByLicense license (filterByPrice price agg)))) ∧
    (plusPipeline price license agg).length
      = min 12 (dedupStage
          (filterByLicense license (filterByPrice price agg))).length ∧
    assetsPipeline results price
      = assetsPriceFilter price ((results.take 10).map mkAssetItem) := by
  refine ⟨rfl, ?_, rfl⟩
  rw [plusPipeline_eq_stages]
  simp only [truncStage, sortPlus, List.length_take, isort_length]

def cex3Row : SRes :=
  ⟨"free icons",
   "https://www.unrealengine.com/marketplace/en-US/product/free-icons",
   "lots of free stuff"⟩

/-- C3 counterexample: for `price=paid` the assets.js handler applies no
filter at all (its only branch handles `free`), so a Free-tagged item is
returned in a paid-only request. -/
theorem assets_paid_filter_missing :
    assetsPipeline [cex3Row] "paid"
      = [⟨"free icons",
          "https://www.unrealengine.com/marketplace/en-US/product/free-icons",
          "Free (inferred)"⟩]
      ∧ freeI "Free (inferred)" = true := by
  refine ⟨by decide, by decide⟩

/-- C3 (amended): in the assets_plus aggregation, `price=free` returns only
Free-tagged results and any other non-`any` price value (such as `paid`)
returns only non-Free results; the assets.js handler filters only in the
`price=free` case (and applies no filter for `price=paid`). -/
theorem price_filter_correct (agg : List PItem) (price : String)
    (license : Option String) (results : List SRes) :
    (price ≠ "" → price ≠ "any" → lowerStr price = "free" →
      ∀ r ∈ plusPipeline price license agg, freeI r.price = true) ∧
    (price ≠ "" → price ≠ "any" → lowerStr price ≠ "free" →
      ∀ r ∈ plusPipeline price license agg, freeI r.price = false) ∧
    (price ≠ "" → lowerStr price = "free" →
      ∀ i ∈ assetsPipeline results price,
        containsSub (lowerStr i.price) "free" = true) := by
  refine ⟨?_, ?_, ?_⟩
  · intro h1 h2 h3 r hr
    have hm := mem_plusPipeline hr
    rw [filterByPrice, if_pos (And.intro h1 h2), if_pos h3] at hm
    exact (List.mem_filter.mp hm).2
  · intro h1 h2 h3 r hr
    have hm := mem_plusPipeline hr
    rw [filterByPrice, if_pos (And.intro h1 h2), if_neg h3] at hm
    have hb := (List.mem_filter.mp hm).2
    simpa using hb
  · intro h1 h3 i hi
    rw [assetsPipeline, assetsPriceFilter, if_pos (And.intro h1 h3)] at hi
    exact (List.mem_filter.mp hi).2

def wFreeItem : PItem :=
  ⟨"pack", "https://author.itch.io/pack", "itch", "Free (inferred)", "Unknown"⟩

/-- C3 witness: a Free-tagged member of a free-filtered assets_plus result
set indeed matches the free pattern. -/
theorem price_filter_correct_witness : freeI wFreeItem.price = true :=
  (price_filter_correct [wFreeItem] "free" none []).1 (by decide) (by decide)
    (by decide) wFreeItem (by decide)

/-- C5: when the GET extraction yields zero candidates (and the query is
valid), both DDG handlers issue the POST fallback with the same query
before answering; if the fallback also extracts zero candidates, the
response is a 200 success with `count 0`, not an error. -/
theorem fallback_then_empty_success (q kind price : String)
    (oracle oracleA : FetchReq → DDGPayload)
    (hq : ¬(q = "" ∨ (trimStr q).length < 2))
    (hget : parseDDGHtmlSearch (oracle (FetchReq.get q)).primary
      (oracle (FetchReq.get q)).fb = [])
    (hgetA : parseDDGHtmlAssets
      (oracleA (FetchReq.get (buildAssetsQuery q kind))).primary
      (oracleA (FetchReq.get (buildAssetsQuery q kind))).fb = []) :
    (searchHandler q oracle).trace = [FetchReq.get q, FetchReq.post q] ∧
    (parseDDGHtmlSearch (oracle (FetchReq.post q)).primary
        (oracle (FetchReq.post q)).fb = [] →
      (searchHandler q oracle).resp = Resp.ok q 0 []) ∧
    (assetsHandler q kind price oracleA).trace
      = [FetchReq.get (buildAssetsQuery q kind),
         FetchReq.post (buildAssetsQuery q kind)] ∧
    (parseDDGHtmlAssets
        (oracleA (FetchReq.post (buildAssetsQuery q kind))).primary
        (oracleA (FetchReq.post (buildAssetsQuery q kind))).fb = [] →
      (assetsHandler q kind price oracleA).resp = Resp.ok q 0 []) := by
  refine ⟨?_, ?_, ?_, ?_⟩
  · simp [searchHandler, hq, hget]
  · intro hpost
    simp [searchHandler, hq, hget, hpost]
  · simp [assetsHandler, hq, hgetA]
  · intro hpost
    simp [assetsHandler, hq, hgetA, hpost, assetsPipeline_nil]

def emptyOracle : FetchReq → DDGPayload := fun _ => ⟨[], []⟩

/-- C5 witness: with empty payloads everywhere, the search handler issues
GET then POST and answers success with count 0. -/
theorem fallback_then_empty_success_witness :
    (searchHandler "unreal docs" emptyOracle).trace
      = [FetchReq.get "unreal docs", FetchReq.post "unreal docs"]
      ∧ (searchHandler "unreal docs" emptyOracle).resp
        = Resp.ok "unreal docs" 0 [] :=
  ⟨(fallback_then_empty_success "unreal docs" "" "any" emptyOracle
      emptyOracle (by decide) (by decide) (by decide)).1,
   (fallback_then_empty_success "unreal docs" "" "any" emptyOracle
      emptyOracle (by decide) (by decide) (by decide)).2.1 (by decide)⟩

def cex6Doc : SMDoc :=
  ⟨[some "https://e/child-a", some "https://e/sitemap1.xml",
    some "https://e/sitemap2.xml", some "https://e/sitemap3.xml",
    some "https://e/sitemap4.xml"], []⟩

def cex6Fetch : String → Option (List (Option String)) :=
  fun c =>
    if c = "https://e/sitemap3.xml" then
      some [some "https://docs.unrealengine.com/blueprint-basics"]
    else some []

/-- C6 counterexample: in the part_002 sitemap handler, the children fetched
are the first 3 entries matching the sitemap-filename pattern; when the
first listed child does not match (`child-a`), the fourth listed child
(`sitemap3.xml`) is fetched, and a URL present only in that fourth child
appears among the results. -/
theorem sitemap_fourth_child_fetched :
    (processV20 cex6Fetch ["blueprint"] cex6Doc []).fetched
      = ["https://e/sitemap1.xml", "https://e/sitemap2.xml",
         "https://e/sitemap3.xml"]
      ∧ cex6Doc.indexLocs.take 3
        = [some "https://e/child-a", some "https://e/sitemap1.xml",
           some "https://e/sitemap2.xml"]
      ∧ "https://docs.unrealengine.com/blueprint-basics"
        ∈ (processV20 cex6Fetch ["blueprint"] cex6Doc []).found.map
          (fun f => f.url) := by
  refine ⟨by decide, by decide, by decide⟩

/-- C6 (amended): per sitemap document at most 3 child sitemaps are
fetched.  In the src/api/search.js handler they are exactly the first 3
listed child locations, and every result URL comes from those children's
urlsets or from the document's own urlset — so an entry only in the 4th or
later child never appears.  In the part_002 handler the children fetched
are the first 3 entries matching the sitemap-filename pattern, which need
not be the first 3 listed. -/
theorem sitemap_child_bound (fetch : String → Option (List (Option String)))
    (terms : List String) (d : SMDoc) (seen0 : List String) :
    (processV21 fetch terms d seen0).fetched
      = (d.indexLocs.take 3).reduceOption ∧
    (∀ f ∈ (processV21 fetch terms d seen0).found,
      f.url ∈ v21Pool fetch d) ∧
    (processV20 fetch terms d seen0).fetched
      = ((urlEntriesOf d).filter sitemapLike).take 3 ∧
    (processV20 fetch terms d seen0).fetched.length ≤ 3 := by
  refine ⟨?_, ?_, ?_, ?_⟩
  · simp only [processV21]
    exact procChildren_fetched fetch terms (d.indexLocs.take 3) seen0
  · intro f hf
    simp only [processV21] at hf
    rcases List.mem_append.mp hf with h1 | h2
    · exact List.mem_append_left _ (procChildren_found_mem h1)
    · have h3 := scanLocs_found_mem h2
      rw [List.map_id'] at h3
      exact List.mem_append_right _ h3
  · simp only [processV20]
    exact procChildrenV20_fetched fetch terms _ _
  · simp only [processV20, procChildrenV20_fetched]
    exact List.length_take_le 3 _

def wDoc6 : SMDoc :=
  ⟨[some "https://e/sitemap1.xml"],
   [some "https://docs.unrealengine.com/blueprint-basics"]⟩

def wFetch6 : String → Option (List (Option String)) := fun _ => some []

def wFound6 : Found :=
  ⟨"blueprint basics", "https://docs.unrealengine.com/blueprint-basics", 6⟩

/-- C6 witness: a concrete found entry of the v2.1 processing lies in the
pool formed by the first-3 children's urlsets and the document's own
urlset. -/
theorem sitemap_child_bound_witness :
    wFound6.url ∈ v21Pool wFetch6 wDoc6 :=
  (sitemap_child_bound wFetch6 ["blueprint"] wDoc6 []).2.1 wFound6 (by decide)

def marketItems12 : List PItem :=
  (List.range 12).map (fun i =>
    ⟨"asset " ++ toString i,
     "https://www.unrealengine.com/marketplace/en-US/product/a" ++ toString i,
     "marketplace", "Unknown", "Unknown"⟩)

def itchItems1 : List PItem :=
  [⟨"z pack", "https://author.itch.io/z-pack", "itch", "Unknown", "Unknown"⟩]

/-- C9: the part_002 assets_plus handler computes `count` from the filtered
list but truncates the returned array to 12 inside the response, so with 13
aggregated results it answers 200 with `count = 13` and a results array of
length 12 — the count field does not equal the number of returned
entries, unlike every other handler. -/
theorem v20_count_results_mismatch :
    respCount (v20AssetsHandler "icons" marketItems12 itchItems1 "any" none)
      = 13
      ∧ (respResults
          (v20AssetsHandler "icons" marketItems12 itchItems1 "any" none)).length
        = 12 := by
  refine ⟨by decide, by decide⟩

end UnrealProxy
